import Mathlib

/-!
Verification development for the `dnd` campaign-hub repository.

The repository has two subsystems:

* `scripts/build-indexes.mjs` — the index reconciliation engine: it lists
  asset files, loads the prior `index.json` document, and merges prior
  curator metadata with freshly derived structural fields.
* `lib.js` (plus the page application script) — the content loader
  (`loadMany`), the markdown renderer (`simpleMarkdown` with `escapeHtml`),
  and the hash router (`getActivePathFromHash` over the `PAGES` catalog).

Everything below is a shallow embedding of those JavaScript functions:
JSON values become the inductive `Json`, JavaScript objects become
insertion-ordered association lists, and each source function is
translated line by line.  Fuel arguments (always instantiated with
`length + 1`, which is sufficient because every iteration consumes at
least one character) make the string scanners structurally recursive so
that concrete runs reduce by `decide`/`rfl`.
-/

/-- JSON values, as produced by `JSON.parse` in the build script.  Numbers
are modelled as integers; no claim depends on non-integer numerics.
Objects are insertion-ordered association lists, mirroring JavaScript
object key ordering. -/
inductive Json where
  | null
  | bool (b : Bool)
  | num (n : Int)
  | str (s : String)
  | arr (xs : List Json)
  | obj (fields : List (String × Json))

/-- A JavaScript object: insertion-ordered association list of fields. -/
abbrev JObj := List (String × Json)

/-- Property read `o[k]`: first binding of the key (JavaScript objects have
unique keys, which all operations below preserve). -/
def assocGet {α : Type} : List (String × α) → String → Option α
  | [], _ => none
  | (k, v) :: rest, key => if k = key then some v else assocGet rest key

/-- Property write `o[k] = v` (also the semantics of a later entry in an
object literal / of `Map.set`): overwrite in place if the key is present,
else append. -/
def assocSet {α : Type} : List (String × α) → String → α → List (String × α)
  | [], key, v => [(key, v)]
  | (k, w) :: rest, key, v =>
    if k = key then (key, v) :: rest else (k, w) :: assocSet rest key v

/-- `o[k]` on a `Json` object. -/
def getKey (m : JObj) (key : String) : Option Json := assocGet m key

/-- Setting one key of a `Json` object. -/
def setKey (m : JObj) (key : String) (v : Json) : JObj := assocSet m key v

/-- Nullish read: `o.k` coalesced as in `o.k ?? d` — a missing key and an
explicit JSON `null` both count as nullish. -/
def nGet (m : JObj) (key : String) : Option Json :=
  match getKey m key with
  | some Json.null => none
  | some v => some v
  | none => none

/-! ### String helpers shared by the metadata derivers

These model the regular-expression chains of `build-indexes.mjs` on
ASCII data (the JavaScript regexes `\w`, `\s`, `[_-]`are ASCII-oriented,
as the spec itself notes for the title casing). -/

/-- JavaScript `\s` on the ASCII range. -/
def jsSpace (c : Char) : Bool :=
  c = ' ' || c = '\t' || c = '\n' || c = '\r' ||
    c = Char.ofNat 11 || c = Char.ofNat 12

/-- JavaScript `\w`: `[A-Za-z0-9_]`. -/
def jsWordChar (c : Char) : Bool := c.isAlphanum || c = '_'

/-- `replace(/X+/g, rep)` for a character class `X`: collapse each maximal
run of matching characters into the single replacement character.  The
boolean tracks whether the previous character was part of a run. -/
def squashRuns (p : Char → Bool) (rep : Char) : Bool → List Char → List Char
  | _, [] => []
  | inRun, c :: rest =>
    if p c then
      (if inRun then [] else [rep]) ++ squashRuns p rep true rest
    else c :: squashRuns p rep false rest

/-- JavaScript `String.prototype.trim` (ASCII whitespace). -/
def jsTrim (cs : List Char) : List Char :=
  ((cs.dropWhile fun c => jsSpace c).reverse.dropWhile fun c => jsSpace c).reverse

/-- `replace(/\b\w/g, m => m.toUpperCase())`: uppercase every word
character that starts a `\w` run. -/
def titleCaseGo : Bool → List Char → List Char
  | _, [] => []
  | prevWord, c :: rest =>
    (if jsWordChar c && !prevWord then c.toUpper else c) :: titleCaseGo (jsWordChar c) rest

/-- The transformation chain shared by `titleFromFilename`,
`folderTitle` segments and `titleFromRelIconPath`:
`.replace(/[_-]+/g," ").replace(/\s+/g," ").trim().replace(/\b\w/g, up)`. -/
def titleChain (s : String) : String :=
  String.mk (titleCaseGo false (jsTrim
    (squashRuns jsSpace ' ' false
      (squashRuns (fun c => c = '_' || c = '-') ' ' false s.data))))

/-- `path.posix.basename` for the slash-free or slash-separated relative
paths produced by the asset walk (no trailing slashes occur there). -/
def posixBasename (s : String) : String :=
  String.mk (s.data.reverse.takeWhile (fun c => c ≠ '/')).reverse

/-- `path.extname`, which looks only at the basename: the suffix starting
at the last dot, unless that dot is the first character of the basename
(so `.bashrc` has no extension). -/
def extname (s : String) : String :=
  let cs := (posixBasename s).data
  let pre := cs.reverse.dropWhile (fun c => c ≠ '.')
  if pre.length ≤ 1 then ""
  else String.mk ('.' :: (cs.reverse.takeWhile (fun c => c ≠ '.')).reverse)

/-- `path.posix.dirname` for the relative paths produced by the walk:
everything before the last slash, `"."` when there is no slash. -/
def posixDirname (s : String) : String :=
  let pre := s.data.reverse.dropWhile (fun c => c ≠ '/')
  match pre with
  | [] => "."
  | _ :: rest => if rest = [] then "/" else String.mk rest.reverse

/-- `str.replace(pat, "")` with a plain-string pattern: remove the first
occurrence of `pat` (the whole string is returned unchanged when `pat`
does not occur; an empty pattern matches at position 0 and removes
nothing). -/
def removeFirstL (pat : List Char) : List Char → List Char
  | [] => []
  | c :: rest =>
    if pat ≠ [] ∧ pat.isPrefixOf (c :: rest) then rest.drop (pat.length - 1)
    else c :: removeFirstL pat rest

/-! ### MetadataDeriver functions (`build-indexes.mjs`) -/

/-- `titleFromFilename` (build-indexes.mjs lines 43-50): strip the first
occurrence of the extension, then squash `[_-]+` and `\s+` runs, trim,
and title-case word starts. -/
def titleFromFilename (filename : String) : String :=
  let ext := extname filename
  let base := if ext = "" then filename else String.mk (removeFirstL ext.data filename.data)
  titleChain base

/-- `folderFromRelPath` (lines 89-92): the dirname, with `"."` mapped to
`""` meaning "root". -/
def folderFromRelPath (relPath : String) : String :=
  let dir := posixDirname relPath
  if dir = "." then "" else dir

/-- `folderTitle` (lines 94-107): `""` becomes `"Unsorted"`; otherwise each
`/`-separated segment is title-cased and the segments are rejoined with
`" / "`. -/
def folderTitle (folder : String) : String :=
  if folder = "" then "Unsorted"
  else String.intercalate " / " ((folder.splitOn "/").map titleChain)

/-- `titleFromRelIconPath` (lines 176-183): basename with the extension
removed (string-`replace` of the first occurrence), then the same chain. -/
def titleFromRelIconPath (relPath : String) : String :=
  let ext := extname relPath
  let base := posixBasename relPath
  let stripped := if ext = "" then base else String.mk (removeFirstL ext.data base.data)
  titleChain stripped

/-- `kindFromRelPath` (lines 185-192): the lowercased first path segment
through the fixed taxonomy. -/
def kindFromRelPath (relPath : String) : String :=
  let first := (String.map Char.toLower ((relPath.splitOn "/").headD ""))
  if first = "pcs" then "pc"
  else if first = "npcs" then "npc"
  else if first = "monsters" then "monster"
  else "other"

/-! ### The image-backed merges (maps lines 117-145, icons lines 218-239)

The object literal `{ ...existing, file, folder: …, … }` spreads the prior
entry and then writes each listed key in order (in-place overwrite for
keys the prior entry already has, append otherwise); `assocSet` is exactly
that write. -/

/-- The tag normalisation shared by both merges:
`Array.isArray(existing.tags) ? existing.tags : []`. -/
def tagsNorm (existing : JObj) : Json :=
  match getKey existing "tags" with
  | some (Json.arr ts) => Json.arr ts
  | _ => Json.arr []

/-- The `existing` branch of the maps merge (lines 121-131). -/
def mapsMerge (existing : JObj) (file : String) : JObj :=
  let folder := folderFromRelPath file
  let e1 := setKey existing "file" (Json.str file)
  let e2 := setKey e1 "folder" ((nGet existing "folder").getD (Json.str folder))
  let e3 := setKey e2 "folder_title"
    ((nGet existing "folder_title").getD (Json.str (folderTitle folder)))
  let e4 := setKey e3 "tags" (tagsNorm existing)
  setKey e4 "size" ((nGet existing "size").getD (Json.str ""))

/-- The fresh-entry branch of the maps merge (lines 133-144). -/
def mapsFresh (file : String) : JObj :=
  let folder := folderFromRelPath file
  [("title", Json.str (titleFromFilename (posixBasename file))),
   ("file", Json.str file),
   ("folder", Json.str folder),
   ("folder_title", Json.str (folderTitle folder)),
   ("tags", Json.arr []),
   ("size", Json.str ""),
   ("blurb", Json.str "")]

/-- The `existing` branch of the icons merge (lines 222-229). -/
def iconsMerge (existing : JObj) (file : String) : JObj :=
  let kind := kindFromRelPath file
  let e1 := setKey existing "file" (Json.str file)
  let e2 := setKey e1 "kind" ((nGet existing "kind").getD (Json.str kind))
  setKey e2 "tags" (tagsNorm existing)

/-- The fresh-entry branch of the icons merge (lines 231-238). -/
def iconsFresh (file : String) : JObj :=
  [("title", Json.str (titleFromRelIconPath file)),
   ("file", Json.str file),
   ("kind", Json.str (kindFromRelPath file)),
   ("tags", Json.arr []),
   ("blurb", Json.str ""),
   ("credit", Json.str "")]

/-- One entry of the reconciled maps document (the body of the
`relFiles.map` callback, lines 117-145). -/
def mapsEntryFor (existingByFile : List (String × JObj)) (file : String) : JObj :=
  match assocGet existingByFile file with
  | some m => mapsMerge m file
  | none => mapsFresh file

/-- One entry of the reconciled icons document (lines 218-239). -/
def iconsEntryFor (existingByFile : List (String × JObj)) (file : String) : JObj :=
  match assocGet existingByFile file with
  | some m => iconsMerge m file
  | none => iconsFresh file

/-- The maps reconciliation: the `maps` array written to
`data/maps/index.json` (line 117/147). -/
def mapsReconcile (existingByFile : List (String × JObj)) (relFiles : List String) : List JObj :=
  relFiles.map (mapsEntryFor existingByFile)

/-- The icons reconciliation: the `icons` array written to
`data/icons/index.json` (line 218/241). -/
def iconsReconcile (existingByFile : List (String × JObj)) (relFiles : List String) : List JObj :=
  relFiles.map (iconsEntryFor existingByFile)

/-- The loop `for (const m of arr) if (m && typeof m.file === "string")
map.set(m.file, m)` shared by `readExistingMapsIndex` (lines 80-82) and
`readExistingIconsIndex` (lines 201-203): only objects carrying a string
`file` are keyed; `Map.set` overwrites in place. -/
def fileMapStep (acc : List (String × JObj)) (j : Json) : List (String × JObj) :=
  match j with
  | Json.obj m =>
    match getKey m "file" with
    | some (Json.str s) => assocSet acc s m
    | _ => acc
  | _ => acc

/-- The fold itself. -/
def buildFileMap (arr : List Json) : List (String × JObj) :=
  arr.foldl fileMapStep []

/-- The observable state of the prior index document: missing file, a read
failure, or the outcome of `JSON.parse` (`none` for a parse error). -/
inductive PriorIndexState where
  | absent
  | readFail
  | parsed (j : Option Json)

/-- Shared body of the two `readExisting*Index` functions, parameterised by
the array field name (`"maps"` / `"icons"`): any failure or shape
mismatch degrades to the empty map. -/
def readExistingIndexCore (field : String) : PriorIndexState → List (String × JObj)
  | .absent => []
  | .readFail => []
  | .parsed none => []
  | .parsed (some j) =>
    buildFileMap
      (match j with
       | Json.obj fields =>
         match getKey fields field with
         | some (Json.arr a) => a
         | _ => []
       | _ => [])

/-- `readExistingMapsIndex` (lines 73-87). -/
def readExistingMapsIndex (st : PriorIndexState) : List (String × JObj) :=
  readExistingIndexCore "maps" st

/-- `readExistingIconsIndex` (lines 194-208). -/
def readExistingIconsIndex (st : PriorIndexState) : List (String × JObj) :=
  readExistingIndexCore "icons" st

/-! ### Sorting and the recursive asset walk (C8)

`files.sort((a, b) => a.localeCompare(b, "en"))` sorts with a locale-aware
comparator.  `locLe` models the `a.localeCompare(b, "en") ≤ 0` relation —
ICU root/en collation at its default tertiary strength with
non-ignorable punctuation — for ASCII strings, the alphabet of this
repository's filenames.  Comparison proceeds level by level over
per-character weight sequences: the *primary* weights order whitespace
before the connector `_`, then the dash `-`, then the remaining
punctuation and symbols in root-collation-chart order, then the digits,
then the letters case-folded; only when the whole primary sequences
agree does the *tertiary* (case) sequence decide, with lowercase before
uppercase.  Strings with equal weight sequences compare equal (the
comparator returns 0), so the induced "≤ 0" relation is total but not
antisymmetric, exactly like the JavaScript comparator.  Characters
outside the table (controls, non-ASCII) fall back to a band above the
letters in code-point order.  `Array.prototype.sort` with a consistent
comparator is modelled as a stable insertion sort by that relation. -/

/-- The ASCII punctuation, symbol and whitespace characters in ICU
root-collation order (everything here weighs less than any digit, and
digits weigh less than letters). -/
def asciiPunctOrder : List Char :=
  ['	', '
', Char.ofNat 11, Char.ofNat 12, '', ' ', '_', '-', ',', ';', ':', '!', '?',
   '.', Char.ofNat 39, Char.ofNat 34, '(', ')', '[', ']', Char.ofNat 123, Char.ofNat 125,
   '@', '*', '/', Char.ofNat 92, '&', '#', '%', Char.ofNat 96, '^', '+', '<', '=', '>',
   '|', '~', '$']

/-- Primary collation weight of one character under the root/en order:
punctuation band, then digits, then case-folded letters; unlisted
characters fall back above the letters in code-point order. -/
def primaryWeight (c : Char) : Nat :=
  if c.isLower then 3000 + (c.toNat - 97)
  else if c.isUpper then 3000 + (c.toNat - 65)
  else if c.isDigit then 2000 + (c.toNat - 48)
  else if c ∈ asciiPunctOrder then 100 + asciiPunctOrder.indexOf c
  else 100000 + c.toNat

/-- Tertiary (case) collation weight: lowercase sorts before uppercase
when the primary sequences agree. -/
def caseWeight (c : Char) : Nat := if c.isUpper then 1 else 0

/-- The collation key of a string: its primary and tertiary weight
sequences. -/
def collKey (s : String) : List Nat × List Nat :=
  (s.data.map primaryWeight, s.data.map caseWeight)

/-- The `a.localeCompare(b, "en") ≤ 0` relation: primary sequences
compare lexicographically first; tertiary sequences break primary
ties. -/
def locLe (a b : String) : Prop :=
  (collKey a).1 < (collKey b).1 ∨
    ((collKey a).1 = (collKey b).1 ∧ (collKey a).2 ≤ (collKey b).2)

instance : DecidableRel locLe := fun a b => by
  unfold locLe; infer_instance

instance locLe.isTotal : IsTotal String locLe := by
  constructor
  intro a b
  rcases lt_trichotomy (collKey a).1 (collKey b).1 with h | h | h
  · exact Or.inl (Or.inl h)
  · rcases le_total (collKey a).2 (collKey b).2 with h2 | h2
    · exact Or.inl (Or.inr ⟨h, h2⟩)
    · exact Or.inr (Or.inr ⟨h.symm, h2⟩)
  · exact Or.inr (Or.inl h)

instance locLe.isTrans : IsTrans String locLe := by
  constructor
  intro a b c hab hbc
  rcases hab with h1 | ⟨e1, l1⟩
  · rcases hbc with h2 | ⟨e2, _⟩
    · exact Or.inl (h1.trans h2)
    · exact Or.inl (e2 ▸ h1)
  · rcases hbc with h2 | ⟨e2, l2⟩
    · exact Or.inl (e1 ▸ h2)
    · exact Or.inr ⟨e1.trans e2, l1.trans l2⟩

/-- JavaScript `String.prototype.endsWith`. -/
def jsEndsWith (s suffix : String) : Bool :=
  suffix.data.isSuffixOf s.data

/-- The document-backed collection listing (build-indexes.mjs lines 25-30):
keep regular files, keep names ending in `.json` that are not themselves
`index.json`, sort with `localeCompare(_, "en")`.  A directory entry is a
name together with its `isFile()` flag. -/
def listJsonFiles (entries : List (String × Bool)) : List String :=
  List.insertionSort locLe
    (((entries.filter fun e => e.2).map fun e => e.1).filter
      fun f => jsEndsWith f ".json" && f != "index.json")

/-- A directory tree as seen by the recursive walk. -/
inductive FsEntry where
  | file (name : String)
  | dir (name : String) (children : List FsEntry)

/-- `path.posix.join(relDir, name)` for the walk (`relDir ? join : name`,
line 60/164). -/
def joinRel (rel name : String) : String :=
  if rel = "" then name else rel ++ "/" ++ name

/-- The body of `walk` (lines 160-171): in-order traversal pushing every
regular file whose lowercased extension is in the set. -/
def walkGo (exts : List String) : List FsEntry → String → List String
  | [], _ => []
  | .file n :: rest, rel =>
    (if String.map Char.toLower (extname n) ∈ exts then [joinRel rel n] else []) ++
      walkGo exts rest rel
  | .dir n children :: rest, rel =>
    walkGo exts children (joinRel rel n) ++ walkGo exts rest rel

/-- `walkFilesRecursive` (lines 158-174): walk from the root, then
`results.sort((a, b) => a.localeCompare(b, "en"))`. -/
def walkFilesRecursive (root : List FsEntry) (exts : List String) : List String :=
  List.insertionSort locLe (walkGo exts root "")

/-- `MAP_EXTS` (line 41). -/
def MAP_EXTS : List String := [".webp", ".png", ".jpg", ".jpeg"]

/-- `ICON_EXTS` (line 156). -/
def ICON_EXTS : List String := [".webp", ".png", ".jpg", ".jpeg", ".svg"]

/-! ### The content loader `loadMany` (lib.js lines 15-23, C3/C4/C10)

```js
export async function loadMany(basePath, files){
  const out = [];
  for (const f of files){
    const obj = await fetch(`${basePath}/${f}`, { cache: "no-cache" })
      .then(r => r.ok ? r.json() : null);
    if (obj) out.push(obj);
  }
  return out;
}
```

The network is modelled by an environment mapping each filename to the
outcome of its fetch: a non-success status (`notOk`, which the `.then`
turns into `null`), a success whose body parses to a JSON value, or a
success whose body fails to parse (`badBody`), in which case `r.json()`
rejects and the `await` re-throws, aborting the whole call (`Except
.error`).  `if (obj)` keeps only truthy parsed values. -/

/-- Outcome of one `fetch` in `loadMany`. -/
inductive FetchOutcome where
  | notOk
  | ok (doc : Json)
  | badBody

/-- JavaScript truthiness of a parsed JSON value (`if (obj)`...). -/
def jsTruthy : Json → Bool
  | Json.null => false
  | Json.bool b => b
  | Json.num n => n != 0
  | Json.str s => s != ""
  | Json.arr _ => true
  | Json.obj _ => true

/-- The `for (const f of files)` loop of `loadMany`, carrying the `out`
accumulator (`out.push(obj)` is an append). -/
def loadManyGo (env : String → FetchOutcome) (out : List Json) :
    List String → Except Unit (List Json)
  | [] => Except.ok out
  | f :: rest =>
    match env f with
    | .notOk => loadManyGo env out rest
    | .ok d => if jsTruthy d then loadManyGo env (out ++ [d]) rest else loadManyGo env out rest
    | .badBody => Except.error ()

/-- `loadMany` itself (the `basePath` only affects the URL, not the
control flow, so the environment is indexed by filename). -/
def loadMany (env : String → FetchOutcome) (files : List String) : Except Unit (List Json) :=
  loadManyGo env [] files

/-- The document contributed by one filename to the result list: a truthy
parsed body of an ok response. -/
def fetchDoc (env : String → FetchOutcome) (f : String) : Option Json :=
  match env f with
  | .ok d => if jsTruthy d then some d else none
  | _ => none

/-- Events of the `loadMany` execution: a fetch going out and its response
arriving.  The loop awaits each fetch before the next one starts; on a
body that fails to parse, the loop aborts after that fetch completed. -/
inductive FetchEv where
  | fstart (f : String)
  | fdone (f : String)

/-- The event trace of `loadMany`: strictly sequential. -/
def loadManyTrace (env : String → FetchOutcome) : List String → List FetchEv
  | [] => []
  | f :: rest =>
    match env f with
    | .badBody => [.fstart f, .fdone f]
    | _ => .fstart f :: .fdone f :: loadManyTrace env rest

/-- Running count of in-flight fetches after each event, starting from
`n` in flight. -/
def inFlightMax (n : Nat) : List FetchEv → Nat
  | [] => n
  | .fstart _ :: rest => max (n + 1) (inFlightMax (n + 1) rest)
  | .fdone _ :: rest => inFlightMax (n - 1) rest

/-- The maximum number of fetches simultaneously in flight during a
trace. -/
def maxInFlight (tr : List FetchEv) : Nat := inFlightMax 0 tr

/-! ### The hash router (app script, lib.js lines 33-54 and 153-157, C9) -/

/-- The `PAGES` catalog (lines 33-54): `(group, title, path)` triples. -/
def PAGES : List (String × String × String) :=
  [("Core", "House rules & table conventions", "content/house-rules/index.md"),
   ("Core", "Safety tools & expectations", "content/safety/index.md"),
   ("Core", "Character options (allowed/bans/nerfs)", "content/character-options/index.md"),
   ("World", "Player-facing lore (overview)", "content/lore/index.md"),
   ("World", "Gazetteer", "content/lore/gazetteer.md"),
   ("World", "Factions", "content/lore/factions.md"),
   ("World", "Religions", "content/lore/religions.md"),
   ("Play", "Travel & downtime rules", "content/travel-downtime/index.md"),
   ("Play", "Treasure & crafting rules", "content/treasure-crafting/index.md"),
   ("Handouts", "Handouts index", "content/handouts/index.md"),
   ("Handouts", "Letters / prop text", "content/handouts/letters.md"),
   ("Handouts", "Puzzles", "content/handouts/puzzles.md"),
   ("Recaps", "Session recap archive", "content/recaps/index.md"),
   ("Recaps", "Session 01 (2026-02-10)", "content/recaps/2026-02-10-session-01.md"),
   ("Recaps", "Session 02 (2026-02-17)", "content/recaps/2026-02-17-session-02.md")]

/-- `PAGES[0][2]`, the catalog's first path. -/
def firstPagePath : String := ((PAGES.headD ("", "", "")).2).2

/-- Hex digit value for percent-decoding. -/
def hexVal (c : Char) : Option Nat :=
  if '0' ≤ c ∧ c ≤ '9' then some (c.toNat - 48)
  else if 'A' ≤ c ∧ c ≤ 'F' then some (c.toNat - 55)
  else if 'a' ≤ c ∧ c ≤ 'f' then some (c.toNat - 87)
  else none

/-- One unit of a URI component: a literal character or a `%XX` byte. -/
inductive UriTok where
  | raw (c : Char)
  | byte (b : Nat)

/-- Tokenize a URI component: every `%` must be followed by two hex digits
(otherwise `decodeURIComponent` throws `URIError`). -/
def pctTokens : List Char → Option (List UriTok)
  | [] => some []
  | c :: rest =>
    if c = '%' then
      match rest with
      | c1 :: c2 :: r =>
        match hexVal c1, hexVal c2 with
        | some h1, some h2 => (pctTokens r).map (fun ts => .byte (16 * h1 + h2) :: ts)
        | _, _ => none
      | _ => none
    else (pctTokens rest).map (fun ts => .raw c :: ts)

/-- Whether a byte is a UTF-8 continuation byte. -/
def isCont (b : Nat) : Bool := 128 ≤ b && b ≤ 191

/-- Decode the token stream: literal characters pass through; `%XX` byte
groups must form valid (shortest-form, non-surrogate) UTF-8, every byte of
a multi-byte sequence itself `%`-escaped, or `decodeURIComponent`
throws. -/
def tokDecode : List UriTok → Option (List Char)
  | [] => some []
  | .raw c :: rest => (tokDecode rest).map (fun cs => c :: cs)
  | .byte b :: rest =>
    if b < 128 then (tokDecode rest).map (fun cs => Char.ofNat b :: cs)
    else if 194 ≤ b && b ≤ 223 then
      match rest with
      | .byte b2 :: r =>
        if isCont b2 then
          (tokDecode r).map (fun cs => Char.ofNat ((b - 192) * 64 + (b2 - 128)) :: cs)
        else none
      | _ => none
    else if 224 ≤ b && b ≤ 239 then
      match rest with
      | .byte b2 :: .byte b3 :: r =>
        let lo2 : Nat := if b = 224 then 160 else 128
        let hi2 : Nat := if b = 237 then 159 else 191
        if (lo2 ≤ b2 && b2 ≤ hi2) && isCont b3 then
          (tokDecode r).map
            (fun cs => Char.ofNat ((b - 224) * 4096 + (b2 - 128) * 64 + (b3 - 128)) :: cs)
        else none
      | _ => none
    else if 240 ≤ b && b ≤ 244 then
      match rest with
      | .byte b2 :: .byte b3 :: .byte b4 :: r =>
        let lo2 : Nat := if b = 240 then 144 else 128
        let hi2 : Nat := if b = 244 then 143 else 191
        if (lo2 ≤ b2 && b2 ≤ hi2) && (isCont b3 && isCont b4) then
          (tokDecode r).map
            (fun cs =>
              Char.ofNat
                ((b - 240) * 262144 + (b2 - 128) * 4096 + (b3 - 128) * 64 + (b4 - 128)) :: cs)
        else none
      | _ => none
    else none

/-- Model of `decodeURIComponent`: `none` models a thrown `URIError`. -/
def decodeURIComponent (s : String) : Option String :=
  ((pctTokens s.data).bind tokDecode).map String.mk

/-- `location.hash.replace(/^#/, "")`: strip one leading `#`. -/
def stripHash (hash : String) : String :=
  match hash.data with
  | '#' :: rest => String.mk rest
  | _ => hash

/-- `getActivePathFromHash` (lines 153-157): empty fragment falls back to
`PAGES[0][2]`; a decodable fragment is returned as-is; a `URIError` in
`decodeURIComponent` falls back to `PAGES[0][2]`. -/
def getActivePathFromHash (hash : String) : String :=
  let h := stripHash hash
  if h = "" then firstPagePath
  else
    match decodeURIComponent h with
    | some d => d
    | none => firstPagePath

/-! ### The markdown renderer `simpleMarkdown` (app script, lib.js lines 93-141, C5)

Each regex pass of the source is translated into a character-list scanner.
Scanners that advance by more than one character per step carry a fuel
argument; callers pass `length + 1`, which always suffices because every
step consumes at least one character, so the fuel fallback is never
reached on the actual arguments. -/

/-- The backtick character. -/
def btick : Char := Char.ofNat 96

/-- Leftmost occurrence of `pat` as a sublist: `some (before, after)` with
`s = before ++ pat ++ after`, or `none` when `pat` does not occur. -/
def splitAtSub (pat : List Char) : List Char → Option (List Char × List Char)
  | [] => if pat = [] then some ([], []) else none
  | c :: rest =>
    if pat.isPrefixOf (c :: rest) then some ([], (c :: rest).drop pat.length)
    else
      match splitAtSub pat rest with
      | some (a, b) => some (c :: a, b)
      | none => none

/-- `replaceAll` with a plain-string pattern: leftmost, non-overlapping,
continuing after each replacement. -/
def replAll (pat rep : List Char) : Nat → List Char → List Char
  | 0, s => s
  | _ + 1, [] => []
  | fuel + 1, c :: rest =>
    if pat ≠ [] ∧ pat.isPrefixOf (c :: rest) then
      rep ++ replAll pat rep fuel ((c :: rest).drop pat.length)
    else c :: replAll pat rep fuel rest

/-- `replaceAll` at the string level. -/
def replaceAllStr (s pat rep : String) : String :=
  String.mk (replAll pat.data rep.data (s.length + 1) s.data)

/-- `escapeHtml` (lib.js lines 93-95): the five sequential `replaceAll`
passes of the source. -/
def escapeHtml (s : String) : String :=
  replaceAllStr
    (replaceAllStr
      (replaceAllStr
        (replaceAllStr
          (replaceAllStr s "&" "&amp;")
          "<" "&lt;")
        ">" "&gt;")
      "\"" "&quot;")
    "'" "&#39;"

/-- Split on newlines (for the `/^…$/gm` line-oriented passes). -/
def splitNl : List Char → List (List Char)
  | [] => [[]]
  | c :: rest =>
    match splitNl rest with
    | [] => [[c]]
    | h :: t => if c = '\n' then [] :: h :: t else (c :: h) :: t

/-- Rejoin lines with newlines. -/
def joinNl (ls : List (List Char)) : List Char :=
  (ls.intersperse ['\n']).flatten

/-- Apply a per-line rewrite, as a `/^…$/gm` regex does. -/
def mapLines (f : List Char → List Char) (s : List Char) : List Char :=
  joinNl ((splitNl s).map f)

/-- `^### (.*)$` → `<h3>$1</h3>` on one line. -/
def h3Line (l : List Char) : List Char :=
  if "### ".data.isPrefixOf l then "<h3>".data ++ l.drop 4 ++ "</h3>".data else l

/-- `^## (.*)$` → `<h2>$1</h2>` on one line. -/
def h2Line (l : List Char) : List Char :=
  if "## ".data.isPrefixOf l then "<h2>".data ++ l.drop 3 ++ "</h2>".data else l

/-- `^# (.*)$` → `<h1>$1</h1>` on one line. -/
def h1Line (l : List Char) : List Char :=
  if "# ".data.isPrefixOf l then "<h1>".data ++ l.drop 2 ++ "</h1>".data else l

/-- `^> (.*)$` → `<blockquote>$1</blockquote>` on one line. -/
def bqLine (l : List Char) : List Char :=
  if "> ".data.isPrefixOf l then
    "<blockquote>".data ++ l.drop 2 ++ "</blockquote>".data
  else l

/-- `@@CODEBLOCK_i@@`. -/
def placeholderChars (i : Nat) : List Char :=
  "@@CODEBLOCK_".data ++ (Nat.repr i).data ++ "@@".data

/-- The code-block extraction pass (lines 99-103): repeatedly take the
leftmost ``` ```…``` ``` pair (non-greedy body = up to the next closing
fence), push the body, and substitute the numbered placeholder.  When an
opening fence has no closing fence, no further match is possible and the
remainder is left untouched. -/
def extractGo (tks : List Char) : Nat → Nat → List Char → List Char × List (List Char)
  | 0, _, s => (s, [])
  | fuel + 1, i, s =>
    match splitAtSub tks s with
    | none => (s, [])
    | some (pre, r1) =>
      match splitAtSub tks r1 with
      | none => (s, [])
      | some (code, r2) =>
        let (s2, blocks) := extractGo tks fuel (i + 1) r2
        (pre ++ placeholderChars i ++ s2, code :: blocks)

/-- Attempt the list-item match `^\s*-\s+(.*)$` at a line-start position:
maximal whitespace run (which may span newlines), a dash, at least one
whitespace character, then the rest of that line. -/
def tryListItem (s : List Char) : Option (List Char × List Char) :=
  let t := s.dropWhile (fun c => jsSpace c)
  match t with
  | c :: u =>
    if c = '-' then
      let ws2 := u.takeWhile (fun c2 => jsSpace c2)
      let v := u.dropWhile (fun c2 => jsSpace c2)
      if ws2 = [] then none
      else some (v.takeWhile (fun c2 => c2 ≠ '\n'), v.dropWhile (fun c2 => c2 ≠ '\n'))
    else none
  | [] => none

/-- The list-item pass `replace(/^\s*-\s+(.*)$/gm, "<li>$1</li>")`
(line 114): a global scan that attempts the item match at every
line-start position. -/
def listGo : Nat → Bool → List Char → List Char
  | 0, _, s => s
  | _ + 1, _, [] => []
  | fuel + 1, atStart, c :: rest =>
    if atStart then
      match tryListItem (c :: rest) with
      | some (content, after) =>
        "<li>".data ++ content ++ "</li>".data ++ listGo fuel false after
      | none => c :: listGo fuel (c = '\n') rest
    else c :: listGo fuel (c = '\n') rest

/-- One `(<li>[\s\S]*?<\/li>\n?)` unit and its greedy repetition, given the
text just after an opening `<li>`: non-greedy body up to the first
`</li>`, an optional newline, then another unit only if `<li>` follows
immediately and itself completes. -/
def parseChain : Nat → List Char → Option (List Char × List Char)
  | 0, _ => none
  | fuel + 1, t =>
    match splitAtSub "</li>".data t with
    | none => none
    | some (mid, rest) =>
      let nl : List Char := match rest with | '\n' :: _ => ['\n'] | _ => []
      let rest2 : List Char := match rest with | '\n' :: r => r | _ => rest
      let unit := "<li>".data ++ mid ++ "</li>".data ++ nl
      if "<li>".data.isPrefixOf rest2 then
        match parseChain fuel (rest2.drop 4) with
        | some (units, after) => some (unit ++ units, after)
        | none => some (unit, rest2)
      else some (unit, rest2)

/-- The run-coalescing pass `replace(/(<li>[\s\S]*?<\/li>\n?)+/g,
m => "<ul>" + m + "</ul>")` (line 115).  If the leftmost `<li>` has no
`</li>` anywhere after it, no position can match and the string is
returned unchanged. -/
def coalesceGo : Nat → List Char → List Char
  | 0, s => s
  | fuel + 1, s =>
    match splitAtSub "<li>".data s with
    | none => s
    | some (pre, rest) =>
      match parseChain (rest.length + 1) rest with
      | none => s
      | some (units, after) =>
        pre ++ "<ul>".data ++ units ++ "</ul>".data ++ coalesceGo fuel after

/-- The inline-code pass `replace(/`([^`]+)`/g, "<code>$1</code>")`
(line 118): note the captured content is inserted without escaping. -/
def inlineCodeGo : Nat → List Char → List Char
  | 0, s => s
  | _ + 1, [] => []
  | fuel + 1, c :: rest =>
    if c = btick then
      let run := rest.takeWhile (fun c2 => c2 ≠ btick)
      let after := rest.dropWhile (fun c2 => c2 ≠ btick)
      match after with
      | _ :: after2 =>
        if run = [] then c :: inlineCodeGo fuel rest
        else "<code>".data ++ run ++ "</code>".data ++ inlineCodeGo fuel after2
      | [] => c :: inlineCodeGo fuel rest
    else c :: inlineCodeGo fuel rest

/-- The link pass `replace(/\[([^\]]+)\]\(([^)]+)\)/g, …)` (line 121):
on a failed match the scan resumes one character further on. -/
def linkGo : Nat → List Char → List Char
  | 0, s => s
  | _ + 1, [] => []
  | fuel + 1, c :: rest =>
    if c = '[' then
      let txt := rest.takeWhile (fun c2 => c2 ≠ ']')
      let a1 := rest.dropWhile (fun c2 => c2 ≠ ']')
      match a1 with
      | _ :: a2 =>
        if txt = [] then c :: linkGo fuel rest
        else
          match a2 with
          | '(' :: a3 =>
            let url := a3.takeWhile (fun c2 => c2 ≠ ')')
            let a4 := a3.dropWhile (fun c2 => c2 ≠ ')')
            match a4 with
            | _ :: a5 =>
              if url = [] then c :: linkGo fuel rest
              else
                "<a href=\"".data ++ url ++
                  "\" target=\"_blank\" rel=\"noopener noreferrer\">".data ++ txt ++
                  "</a>".data ++ linkGo fuel a5
            | [] => c :: linkGo fuel rest
          | _ => c :: linkGo fuel rest
      | [] => c :: linkGo fuel rest
    else c :: linkGo fuel rest

/-- `split(/\n{2,}/)` (line 125): split at each maximal run of two or more
newlines. -/
def splitBlocksGo : Nat → List Char → List (List Char)
  | 0, s => [s]
  | fuel + 1, s =>
    match splitAtSub "\n\n".data s with
    | none => [s]
    | some (pre, rest) => pre :: splitBlocksGo fuel (rest.dropWhile (fun c => c = '\n'))

/-- The per-block paragraph wrap (lines 126-131). -/
def blockWrap (b : List Char) : List Char :=
  let t := jsTrim b
  if t = [] then []
  else if "<h".data.isPrefixOf t || "<ul>".data.isPrefixOf t ||
      "<blockquote>".data.isPrefixOf t then t
  else "<p>".data ++ replAll ['\n'] "<br/>".data (t.length + 1) t ++ "</p>".data

/-- The paragraph pass (lines 124-132): split on blank-line runs, wrap,
rejoin with `\n`. -/
def paragraphPass (s : List Char) : List Char :=
  joinNl ((splitBlocksGo (s.length + 1) s).map blockWrap)

/-- Strip leading and trailing newline runs (`replace(/^\n+|\n+$/g, "")`,
line 137). -/
def trimNlRuns (cs : List Char) : List Char :=
  ((cs.dropWhile (fun c => c = '\n')).reverse.dropWhile (fun c => c = '\n')).reverse

/-- Digits → number, as `Number()` of a digit string. -/
def natOfDigits (ds : List Char) : Nat :=
  ds.foldl (fun n c => n * 10 + (c.toNat - 48)) 0

/-- The restore pass `replace(/@@CODEBLOCK_(\d+)@@/g, …)` (lines 136-139):
each placeholder becomes `<pre><code>` + the HTML-escaped, newline-trimmed
pushed body + `</code></pre>`.  An index with no pushed block makes the
replacement callback dereference `undefined` and throw — modelled as
`none`. -/
def restoreGo (blocks : List (List Char)) : Nat → List Char → Option (List Char)
  | 0, s => some s
  | _ + 1, [] => some []
  | fuel + 1, c :: rest =>
    if "@@CODEBLOCK_".data.isPrefixOf (c :: rest) then
      let t := (c :: rest).drop 12
      let ds := t.takeWhile Char.isDigit
      let t2 := t.dropWhile Char.isDigit
      if ds ≠ [] ∧ "@@".data.isPrefixOf t2 then
        match blocks.get? (natOfDigits ds) with
        | some code =>
          match restoreGo blocks fuel (t2.drop 2) with
          | some r =>
            some ("<pre><code>".data ++ (escapeHtml (String.mk (trimNlRuns code))).data ++
              "</code></pre>".data ++ r)
          | none => none
        | none => none
      else
        match restoreGo blocks fuel rest with
        | some r => some (c :: r)
        | none => none
    else
      match restoreGo blocks fuel rest with
      | some r => some (c :: r)
      | none => none

/-- `simpleMarkdown` (lib.js lines 97-141): the full pass pipeline, in
source order.  `none` models a thrown exception (only the restore pass
can throw). -/
def simpleMarkdown (md : String) : Option String :=
  let s0 := md.data
  let ex := extractGo [btick, btick, btick] (s0.length + 1) 0 s0
  let s1 := ex.1
  let blocks := ex.2
  let s2 := mapLines h3Line s1
  let s3 := mapLines h2Line s2
  let s4 := mapLines h1Line s3
  let s5 := mapLines bqLine s4
  let s6 := listGo (s5.length + 1) true s5
  let s7 := coalesceGo (s6.length + 1) s6
  let s8 := inlineCodeGo (s7.length + 1) s7
  let s9 := linkGo (s8.length + 1) s8
  let s10 := paragraphPass s9
  (restoreGo blocks (s10.length + 1) s10).map String.mk

/-- Shape predicate for the prior index document: a JSON object whose
`field` property is an array (what `Array.isArray(parsed?.[field])`
accepts). -/
def hasArrayField (j : Json) (field : String) : Prop :=
  ∃ fields a, j = Json.obj fields ∧ getKey fields field = some (Json.arr a)

/-! ## Theorems -/

theorem assocGet_assocSet_self {α : Type} (m : List (String × α)) (k : String) (v : α) :
    assocGet (assocSet m k v) k = some v := by
  induction m with
  | nil => simp [assocGet, assocSet]
  | cons p rest ih =>
    obtain ⟨k2, w⟩ := p
    by_cases h : k2 = k
    · simp [assocGet, assocSet, h]
    · simp [assocGet, assocSet, h, ih]

theorem assocGet_assocSet_ne {α : Type} (m : List (String × α)) (k k2 : String) (v : α)
    (h : k2 ≠ k) : assocGet (assocSet m k v) k2 = assocGet m k2 := by
  have hne : ¬k = k2 := fun hh => h hh.symm
  induction m with
  | nil => simp [assocGet, assocSet, hne]
  | cons p rest ih =>
    obtain ⟨k3, w⟩ := p
    by_cases h3 : k3 = k
    · subst h3
      simp [assocGet, assocSet, hne]
    · simp only [assocSet, if_neg h3]
      by_cases h23 : k3 = k2
      · simp [assocGet, h23]
      · simp [assocGet, h23, ih]

theorem assocSet_eq_self {α : Type} (m : List (String × α)) (k : String) (v : α)
    (h : assocGet m k = some v) : assocSet m k v = m := by
  induction m with
  | nil => simp [assocGet] at h
  | cons p rest ih =>
    obtain ⟨k2, w⟩ := p
    by_cases h2 : k2 = k
    · subst h2
      have hw : w = v := by simpa [assocGet] using h
      simp [assocSet, hw]
    · simp only [assocGet, if_neg h2] at h
      simp [assocSet, h2, ih h]

theorem nGet_ne_null (m : JObj) (k : String) (v : Json) (h : nGet m k = some v) :
    v ≠ Json.null := by
  unfold nGet at h
  rcases hg : getKey m k with _ | u
  · rw [hg] at h
    exact absurd h (by simp)
  · rw [hg] at h
    cases u <;> simp_all <;> exact fun hv => by simp [hv] at h

theorem nGet_of_getKey (m : JObj) (k : String) (v : Json) (h : getKey m k = some v)
    (hv : v ≠ Json.null) : nGet m k = some v := by
  unfold nGet
  rw [h]
  cases v <;> simp_all

theorem getKey_mapsMerge_file (m : JObj) (f : String) :
    getKey (mapsMerge m f) "file" = some (Json.str f) := by
  simp only [mapsMerge, getKey, setKey]
  rw [assocGet_assocSet_ne _ _ _ _ (by decide), assocGet_assocSet_ne _ _ _ _ (by decide),
    assocGet_assocSet_ne _ _ _ _ (by decide), assocGet_assocSet_ne _ _ _ _ (by decide),
    assocGet_assocSet_self]

theorem getKey_mapsMerge_folder (m : JObj) (f : String) :
    getKey (mapsMerge m f) "folder" =
      some ((nGet m "folder").getD (Json.str (folderFromRelPath f))) := by
  simp only [mapsMerge, getKey, setKey]
  rw [assocGet_assocSet_ne _ _ _ _ (by decide), assocGet_assocSet_ne _ _ _ _ (by decide),
    assocGet_assocSet_ne _ _ _ _ (by decide), assocGet_assocSet_self]

theorem getKey_mapsMerge_folder_title (m : JObj) (f : String) :
    getKey (mapsMerge m f) "folder_title" =
      some ((nGet m "folder_title").getD (Json.str (folderTitle (folderFromRelPath f)))) := by
  simp only [mapsMerge, getKey, setKey]
  rw [assocGet_assocSet_ne _ _ _ _ (by decide), assocGet_assocSet_ne _ _ _ _ (by decide),
    assocGet_assocSet_self]

theorem getKey_mapsMerge_tags (m : JObj) (f : String) :
    getKey (mapsMerge m f) "tags" = some (tagsNorm m) := by
  simp only [mapsMerge, getKey, setKey]
  rw [assocGet_assocSet_ne _ _ _ _ (by decide), assocGet_assocSet_self]

theorem getKey_mapsMerge_size (m : JObj) (f : String) :
    getKey (mapsMerge m f) "size" = some ((nGet m "size").getD (Json.str "")) := by
  simp only [mapsMerge, getKey, setKey]
  rw [assocGet_assocSet_self]

theorem getKey_mapsMerge_frame (m : JObj) (f k : String)
    (h1 : k ≠ "file") (h2 : k ≠ "folder") (h3 : k ≠ "folder_title") (h4 : k ≠ "tags")
    (h5 : k ≠ "size") : getKey (mapsMerge m f) k = getKey m k := by
  simp only [mapsMerge, getKey, setKey]
  rw [assocGet_assocSet_ne _ _ _ _ h5, assocGet_assocSet_ne _ _ _ _ h4,
    assocGet_assocSet_ne _ _ _ _ h3, assocGet_assocSet_ne _ _ _ _ h2,
    assocGet_assocSet_ne _ _ _ _ h1]

theorem getKey_iconsMerge_file (m : JObj) (f : String) :
    getKey (iconsMerge m f) "file" = some (Json.str f) := by
  simp only [iconsMerge, getKey, setKey]
  rw [assocGet_assocSet_ne _ _ _ _ (by decide), assocGet_assocSet_ne _ _ _ _ (by decide),
    assocGet_assocSet_self]

theorem getKey_iconsMerge_kind (m : JObj) (f : String) :
    getKey (iconsMerge m f) "kind" =
      some ((nGet m "kind").getD (Json.str (kindFromRelPath f))) := by
  simp only [iconsMerge, getKey, setKey]
  rw [assocGet_assocSet_ne _ _ _ _ (by decide), assocGet_assocSet_self]

theorem getKey_iconsMerge_tags (m : JObj) (f : String) :
    getKey (iconsMerge m f) "tags" = some (tagsNorm m) := by
  simp only [iconsMerge, getKey, setKey]
  rw [assocGet_assocSet_self]

theorem getKey_iconsMerge_frame (m : JObj) (f k : String)
    (h1 : k ≠ "file") (h2 : k ≠ "kind") (h3 : k ≠ "tags") :
    getKey (iconsMerge m f) k = getKey m k := by
  simp only [iconsMerge, getKey, setKey]
  rw [assocGet_assocSet_ne _ _ _ _ h3, assocGet_assocSet_ne _ _ _ _ h2,
    assocGet_assocSet_ne _ _ _ _ h1]

theorem tagsNorm_of_arr (m : JObj) (ts : List Json) (h : getKey m "tags" = some (Json.arr ts)) :
    tagsNorm m = Json.arr ts := by
  simp [tagsNorm, h]

theorem tagsNorm_is_arr (m : JObj) : ∃ ts, tagsNorm m = Json.arr ts := by
  unfold tagsNorm
  rcases getKey m "tags" with _ | v
  · exact ⟨[], rfl⟩
  · cases v <;> simp

theorem getD_nGet_ne_null (m : JObj) (k : String) (d : Json) (hd : d ≠ Json.null) :
    (nGet m k).getD d ≠ Json.null := by
  rcases h : nGet m k with _ | v
  · simpa using hd
  · simpa using nGet_ne_null m k v h

theorem mapsMerge_keeps (m : JObj) (f : String)
    (h1 : getKey m "file" = some (Json.str f))
    (h2 : ∃ v, getKey m "folder" = some v ∧ v ≠ Json.null)
    (h3 : ∃ v, getKey m "folder_title" = some v ∧ v ≠ Json.null)
    (h4 : ∃ ts, getKey m "tags" = some (Json.arr ts))
    (h5 : ∃ v, getKey m "size" = some v ∧ v ≠ Json.null) :
    mapsMerge m f = m := by
  obtain ⟨v2, hv2, hn2⟩ := h2
  obtain ⟨v3, hv3, hn3⟩ := h3
  obtain ⟨ts, hts⟩ := h4
  obtain ⟨v5, hv5, hn5⟩ := h5
  simp only [mapsMerge, setKey]
  rw [assocSet_eq_self _ _ _ h1,
    nGet_of_getKey _ _ _ hv2 hn2, Option.getD_some, assocSet_eq_self _ _ _ hv2,
    nGet_of_getKey _ _ _ hv3 hn3, Option.getD_some, assocSet_eq_self _ _ _ hv3,
    tagsNorm_of_arr _ _ hts, assocSet_eq_self _ _ _ hts,
    nGet_of_getKey _ _ _ hv5 hn5, Option.getD_some, assocSet_eq_self _ _ _ hv5]

theorem iconsMerge_keeps (m : JObj) (f : String)
    (h1 : getKey m "file" = some (Json.str f))
    (h2 : ∃ v, getKey m "kind" = some v ∧ v ≠ Json.null)
    (h3 : ∃ ts, getKey m "tags" = some (Json.arr ts)) :
    iconsMerge m f = m := by
  obtain ⟨v2, hv2, hn2⟩ := h2
  obtain ⟨ts, hts⟩ := h3
  simp only [iconsMerge, setKey]
  rw [assocSet_eq_self _ _ _ h1,
    nGet_of_getKey _ _ _ hv2 hn2, Option.getD_some, assocSet_eq_self _ _ _ hv2,
    tagsNorm_of_arr _ _ hts, assocSet_eq_self _ _ _ hts]

theorem mapsMerge_stable (m : JObj) (f : String) :
    mapsMerge (mapsMerge m f) f = mapsMerge m f := by
  obtain ⟨ts, hts⟩ := tagsNorm_is_arr m
  refine mapsMerge_keeps _ f (getKey_mapsMerge_file m f)
    ⟨_, getKey_mapsMerge_folder m f, getD_nGet_ne_null _ _ _ (by simp)⟩
    ⟨_, getKey_mapsMerge_folder_title m f, getD_nGet_ne_null _ _ _ (by simp)⟩
    ⟨ts, ?_⟩
    ⟨_, getKey_mapsMerge_size m f, getD_nGet_ne_null _ _ _ (by simp)⟩
  rw [getKey_mapsMerge_tags, hts]

theorem iconsMerge_stable (m : JObj) (f : String) :
    iconsMerge (iconsMerge m f) f = iconsMerge m f := by
  obtain ⟨ts, hts⟩ := tagsNorm_is_arr m
  refine iconsMerge_keeps _ f (getKey_iconsMerge_file m f)
    ⟨_, getKey_iconsMerge_kind m f, getD_nGet_ne_null _ _ _ (by simp)⟩ ⟨ts, ?_⟩
  rw [getKey_iconsMerge_tags, hts]

theorem getKey_mapsFresh_file (f : String) :
    getKey (mapsFresh f) "file" = some (Json.str f) := by
  simp [mapsFresh, getKey, assocGet]

theorem getKey_iconsFresh_file (f : String) :
    getKey (iconsFresh f) "file" = some (Json.str f) := by
  simp [iconsFresh, getKey, assocGet]

theorem mapsFresh_stable (f : String) : mapsMerge (mapsFresh f) f = mapsFresh f := by
  refine mapsMerge_keeps _ f (getKey_mapsFresh_file f)
    ⟨Json.str (folderFromRelPath f), by simp [mapsFresh, getKey, assocGet], by simp⟩
    ⟨Json.str (folderTitle (folderFromRelPath f)), by simp [mapsFresh, getKey, assocGet], by simp⟩
    ⟨[], by simp [mapsFresh, getKey, assocGet]⟩
    ⟨Json.str "", by simp [mapsFresh, getKey, assocGet], by simp⟩

theorem iconsFresh_stable (f : String) : iconsMerge (iconsFresh f) f = iconsFresh f := by
  refine iconsMerge_keeps _ f (getKey_iconsFresh_file f)
    ⟨Json.str (kindFromRelPath f), by simp [iconsFresh, getKey, assocGet], by simp⟩
    ⟨[], by simp [iconsFresh, getKey, assocGet]⟩

theorem getKey_mapsEntryFor_file (prior : List (String × JObj)) (f : String) :
    getKey (mapsEntryFor prior f) "file" = some (Json.str f) := by
  unfold mapsEntryFor
  rcases assocGet prior f with _ | m
  · exact getKey_mapsFresh_file f
  · exact getKey_mapsMerge_file m f

theorem getKey_iconsEntryFor_file (prior : List (String × JObj)) (f : String) :
    getKey (iconsEntryFor prior f) "file" = some (Json.str f) := by
  unfold iconsEntryFor
  rcases assocGet prior f with _ | m
  · exact getKey_iconsFresh_file f
  · exact getKey_iconsMerge_file m f

theorem fileMapStep_of_file (acc : List (String × JObj)) (m : JObj) (s : String)
    (h : getKey m "file" = some (Json.str s)) :
    fileMapStep acc (Json.obj m) = assocSet acc s m := by
  simp [fileMapStep, h]

theorem foldl_fileMapStep_skip (g : String → JObj)
    (hg : ∀ x, getKey (g x) "file" = some (Json.str x)) (fs : List String)
    (acc : List (String × JObj)) (k : String) (h : ∀ x ∈ fs, x ≠ k) :
    assocGet (List.foldl fileMapStep acc ((fs.map g).map Json.obj)) k = assocGet acc k := by
  induction fs generalizing acc with
  | nil => rfl
  | cons a rest ih =>
    simp only [List.map_cons, List.foldl_cons]
    rw [fileMapStep_of_file _ _ _ (hg a)]
    rw [ih _ (fun x hx => h x (List.mem_cons_of_mem _ hx))]
    exact assocGet_assocSet_ne _ _ _ _ (h a (List.mem_cons_self a rest)).symm

theorem assocGet_buildFileMap_aux (g : String → JObj)
    (hg : ∀ x, getKey (g x) "file" = some (Json.str x)) (fs : List String)
    (acc : List (String × JObj)) (f : String) (hf : f ∈ fs) (hnd : fs.Nodup) :
    assocGet (List.foldl fileMapStep acc ((fs.map g).map Json.obj)) f = some (g f) := by
  induction fs generalizing acc with
  | nil => cases hf
  | cons a rest ih =>
    simp only [List.map_cons, List.foldl_cons]
    rw [fileMapStep_of_file _ _ _ (hg a)]
    rcases List.mem_cons.mp hf with rfl | hf2
    · rw [foldl_fileMapStep_skip g hg rest _ f
        (fun x hx hxf => (List.nodup_cons.mp hnd).1 (hxf ▸ hx))]
      exact assocGet_assocSet_self _ _ _
    · exact ih _ hf2 (List.nodup_cons.mp hnd).2

theorem assocGet_buildFileMap (g : String → JObj)
    (hg : ∀ x, getKey (g x) "file" = some (Json.str x)) (fs : List String) (f : String)
    (hf : f ∈ fs) (hnd : fs.Nodup) :
    assocGet (buildFileMap ((fs.map g).map Json.obj)) f = some (g f) :=
  assocGet_buildFileMap_aux g hg fs [] f hf hnd

theorem mapsEntryFor_idem (p : List (String × JObj)) (f : String) :
    mapsMerge (mapsEntryFor p f) f = mapsEntryFor p f := by
  unfold mapsEntryFor
  rcases h2 : assocGet p f with _ | mm
  · exact mapsFresh_stable f
  · exact mapsMerge_stable mm f

theorem iconsEntryFor_idem (p : List (String × JObj)) (f : String) :
    iconsMerge (iconsEntryFor p f) f = iconsEntryFor p f := by
  unfold iconsEntryFor
  rcases h2 : assocGet p f with _ | mm
  · exact iconsFresh_stable f
  · exact iconsMerge_stable mm f

theorem mapsEntryFor_of_lookup (p2 p : List (String × JObj)) (f : String)
    (hl : assocGet p2 f = some (mapsEntryFor p f)) :
    mapsEntryFor p2 f = mapsEntryFor p f := by
  unfold mapsEntryFor at hl ⊢
  rw [hl]
  exact mapsEntryFor_idem p f

theorem iconsEntryFor_of_lookup (p2 p : List (String × JObj)) (f : String)
    (hl : assocGet p2 f = some (iconsEntryFor p f)) :
    iconsEntryFor p2 f = iconsEntryFor p f := by
  unfold iconsEntryFor at hl ⊢
  rw [hl]
  exact iconsEntryFor_idem p f

/-- **C1** (amended).  Metadata preservation, as the merge actually
guarantees it: for an image-backed entry with a prior counterpart, every
field other than the recomputed structural fields and the two
*normalised* fields survives verbatim — for maps the recomputed/normalised
fields are `file`, `folder`, `folder_title`, `tags`, `size`; for icons
they are `file`, `kind`, `tags`.  `tags` survives verbatim exactly when
its prior value is an array, and the maps `size` survives exactly when it
is present and not `null`; otherwise they are replaced by `[]` and `""`
respectively (which refutes the claim's unconditional "including `tags`,
`size`" — see the counterexample). -/
theorem C1_metadata_preservation (m : JObj) (f k : String) :
    (k ∉ (["file", "folder", "folder_title", "tags", "size"] : List String) →
      getKey (mapsMerge m f) k = getKey m k) ∧
    (k ∉ (["file", "kind", "tags"] : List String) →
      getKey (iconsMerge m f) k = getKey m k) ∧
    (∀ ts, getKey m "tags" = some (Json.arr ts) →
      getKey (mapsMerge m f) "tags" = some (Json.arr ts) ∧
      getKey (iconsMerge m f) "tags" = some (Json.arr ts)) ∧
    (∀ v, getKey m "size" = some v → v ≠ Json.null →
      getKey (mapsMerge m f) "size" = some v) := by
  refine ⟨fun hk => ?_, fun hk => ?_, fun ts hts => ?_, fun v hv hn => ?_⟩
  · simp only [List.mem_cons, List.not_mem_nil, or_false, not_or] at hk
    exact getKey_mapsMerge_frame m f k hk.1 hk.2.1 hk.2.2.1 hk.2.2.2.1 hk.2.2.2.2
  · simp only [List.mem_cons, List.not_mem_nil, or_false, not_or] at hk
    exact getKey_iconsMerge_frame m f k hk.1 hk.2.1 hk.2.2
  · constructor
    · rw [getKey_mapsMerge_tags, tagsNorm_of_arr _ _ hts]
    · rw [getKey_iconsMerge_tags, tagsNorm_of_arr _ _ hts]
  · rw [getKey_mapsMerge_size, nGet_of_getKey _ _ _ hv hn, Option.getD_some]

/-- Witness for the amended C1 at a concrete instance: a curator `notes`
field and an array `tags` field survive the maps merge verbatim. -/
theorem C1_metadata_preservation_witness :
    (("notes" : String) ∉ (["file", "folder", "folder_title", "tags", "size"] : List String)) ∧
    getKey (mapsMerge [("file", Json.str "a.png"), ("notes", Json.str "keep me"),
        ("tags", Json.arr [Json.str "dungeon"])] "a.png") "notes"
      = getKey [("file", Json.str "a.png"), ("notes", Json.str "keep me"),
        ("tags", Json.arr [Json.str "dungeon"])] "notes" ∧
    getKey (mapsMerge [("file", Json.str "a.png"), ("notes", Json.str "keep me"),
        ("tags", Json.arr [Json.str "dungeon"])] "a.png") "tags"
      = some (Json.arr [Json.str "dungeon"]) :=
  ⟨by decide,
    (C1_metadata_preservation [("file", Json.str "a.png"), ("notes", Json.str "keep me"),
      ("tags", Json.arr [Json.str "dungeon"])] "a.png" "notes").1 (by decide),
    ((C1_metadata_preservation [("file", Json.str "a.png"), ("notes", Json.str "keep me"),
      ("tags", Json.arr [Json.str "dungeon"])] "a.png" "notes").2.2.1 [Json.str "dungeon"]
      rfl).1⟩

/-- **C1 counterexample.**  The claim states that *every* prior field other
than `file`/`folder`/`folder_title`/`kind` — explicitly including `tags`
and `size` — survives verbatim.  It does not: a prior `tags` that is not
an array (here the string `"dungeon"`) is replaced by `[]` by
`Array.isArray(existing.tags) ? existing.tags : []`. -/
theorem C1_counterexample :
    getKey [("file", Json.str "a.png"), ("tags", Json.str "dungeon"),
        ("notes", Json.str "keep")] "tags" = some (Json.str "dungeon") ∧
    getKey (mapsMerge [("file", Json.str "a.png"), ("tags", Json.str "dungeon"),
        ("notes", Json.str "keep")] "a.png") "tags" = some (Json.arr []) ∧
    (("tags" : String) ∉ (["file", "folder", "folder_title", "kind"] : List String)) ∧
    Json.str "dungeon" ≠ Json.arr [] :=
  ⟨rfl, rfl, by decide, fun h => Json.noConfusion h⟩

/-- **C2.**  Idempotence of the reconciliation merge: re-reading the
document written by a first reconciliation (its entries keyed by `file`
exactly as `readExisting*Index` keys them) and reconciling again over the
same file list reproduces the same document, for maps and icons alike.
The on-disk file list contains no duplicates, hence the `Nodup`
hypothesis. -/
theorem C2_reconcile_idempotent (priorM priorI : List (String × JObj)) (fs : List String)
    (h : fs.Nodup) :
    mapsReconcile (readExistingMapsIndex (PriorIndexState.parsed (some (Json.obj
        [("maps", Json.arr ((mapsReconcile priorM fs).map Json.obj))])))) fs
      = mapsReconcile priorM fs ∧
    iconsReconcile (readExistingIconsIndex (PriorIndexState.parsed (some (Json.obj
        [("icons", Json.arr ((iconsReconcile priorI fs).map Json.obj))])))) fs
      = iconsReconcile priorI fs := by
  constructor
  · have hread : readExistingMapsIndex (PriorIndexState.parsed (some (Json.obj
        [("maps", Json.arr ((mapsReconcile priorM fs).map Json.obj))])))
        = buildFileMap ((mapsReconcile priorM fs).map Json.obj) := by
      simp [readExistingMapsIndex, readExistingIndexCore, getKey, assocGet]
    rw [hread]
    simp only [mapsReconcile]
    exact List.map_congr_left (fun f hf => mapsEntryFor_of_lookup _ _ f
      (assocGet_buildFileMap (mapsEntryFor priorM) (getKey_mapsEntryFor_file priorM) fs f hf h))
  · have hread : readExistingIconsIndex (PriorIndexState.parsed (some (Json.obj
        [("icons", Json.arr ((iconsReconcile priorI fs).map Json.obj))])))
        = buildFileMap ((iconsReconcile priorI fs).map Json.obj) := by
      simp [readExistingIconsIndex, readExistingIndexCore, getKey, assocGet]
    rw [hread]
    simp only [iconsReconcile]
    exact List.map_congr_left (fun f hf => iconsEntryFor_of_lookup _ _ f
      (assocGet_buildFileMap (iconsEntryFor priorI) (getKey_iconsEntryFor_file priorI) fs f hf h))

/-- Witness for C2 at a concrete prior index and two-file listing. -/
theorem C2_reconcile_idempotent_witness :
    (["a.png", "w/b.webp"] : List String).Nodup ∧
    (mapsReconcile (readExistingMapsIndex (PriorIndexState.parsed (some (Json.obj
        [("maps", Json.arr ((mapsReconcile [("a.png", [("notes", Json.str "n"),
          ("file", Json.str "a.png")])] ["a.png", "w/b.webp"]).map Json.obj))]))))
        ["a.png", "w/b.webp"]
      = mapsReconcile [("a.png", [("notes", Json.str "n"), ("file", Json.str "a.png")])]
          ["a.png", "w/b.webp"] ∧
    iconsReconcile (readExistingIconsIndex (PriorIndexState.parsed (some (Json.obj
        [("icons", Json.arr ((iconsReconcile [] ["a.png", "w/b.webp"]).map Json.obj))]))))
        ["a.png", "w/b.webp"]
      = iconsReconcile [] ["a.png", "w/b.webp"]) :=
  ⟨by decide,
    C2_reconcile_idempotent [("a.png", [("notes", Json.str "n"), ("file", Json.str "a.png")])]
      [] ["a.png", "w/b.webp"] (by decide)⟩

/-- **C6.**  Merge precedence: a prior non-nullish `folder`/`folder_title`
(maps) or `kind` (icons) wins over the freshly derived value (`prior ??
derived`); when the prior entry lacks the field (or has it `null`, which
`??` treats identically), the derived value is used. -/
theorem C6_merge_precedence (m : JObj) (f : String) :
    (∀ v, nGet m "folder" = some v → getKey (mapsMerge m f) "folder" = some v) ∧
    (nGet m "folder" = none →
      getKey (mapsMerge m f) "folder" = some (Json.str (folderFromRelPath f))) ∧
    (∀ v, nGet m "folder_title" = some v → getKey (mapsMerge m f) "folder_title" = some v) ∧
    (nGet m "folder_title" = none →
      getKey (mapsMerge m f) "folder_title"
        = some (Json.str (folderTitle (folderFromRelPath f)))) ∧
    (∀ v, nGet m "kind" = some v → getKey (iconsMerge m f) "kind" = some v) ∧
    (nGet m "kind" = none →
      getKey (iconsMerge m f) "kind" = some (Json.str (kindFromRelPath f))) := by
  refine ⟨fun v hv => ?_, fun hv => ?_, fun v hv => ?_, fun hv => ?_, fun v hv => ?_,
    fun hv => ?_⟩
  · rw [getKey_mapsMerge_folder, hv, Option.getD_some]
  · rw [getKey_mapsMerge_folder, hv]; rfl
  · rw [getKey_mapsMerge_folder_title, hv, Option.getD_some]
  · rw [getKey_mapsMerge_folder_title, hv]; rfl
  · rw [getKey_iconsMerge_kind, hv, Option.getD_some]
  · rw [getKey_iconsMerge_kind, hv]; rfl

/-- Witness for C6: a prior entry that sets `folder` keeps it, and one
that lacks `folder_title` gets the derived title. -/
theorem C6_merge_precedence_witness :
    getKey (mapsMerge [("file", Json.str "feywild/x.png"), ("folder", Json.str "custom")]
        "feywild/x.png") "folder" = some (Json.str "custom") ∧
    getKey (mapsMerge [("file", Json.str "feywild/x.png"), ("folder", Json.str "custom")]
        "feywild/x.png") "folder_title"
      = some (Json.str (folderTitle (folderFromRelPath "feywild/x.png"))) :=
  ⟨(C6_merge_precedence [("file", Json.str "feywild/x.png"), ("folder", Json.str "custom")]
      "feywild/x.png").1 (Json.str "custom") rfl,
    (C6_merge_precedence [("file", Json.str "feywild/x.png"), ("folder", Json.str "custom")]
      "feywild/x.png").2.2.2.1 rfl⟩

/-- **C7.**  A malformed prior index degrades to the empty baseline: a
`JSON.parse` failure or a parsed value without the expected array field
yields the empty map, and reconciling against the empty map produces the
all-default document. -/
theorem C7_malformed_prior_empty :
    readExistingMapsIndex (PriorIndexState.parsed none) = [] ∧
    readExistingIconsIndex (PriorIndexState.parsed none) = [] ∧
    (∀ j, ¬hasArrayField j "maps" →
      readExistingMapsIndex (PriorIndexState.parsed (some j)) = []) ∧
    (∀ j, ¬hasArrayField j "icons" →
      readExistingIconsIndex (PriorIndexState.parsed (some j)) = []) ∧
    (∀ fs, mapsReconcile [] fs = fs.map mapsFresh) ∧
    (∀ fs, iconsReconcile [] fs = fs.map iconsFresh) := by
  refine ⟨rfl, rfl, ?_, ?_, ?_, ?_⟩
  · intro j hj
    unfold readExistingMapsIndex readExistingIndexCore
    cases j <;> try rfl
    rename_i fields
    rcases hg : getKey fields "maps" with _ | v
    · simp [hg, buildFileMap]
    · cases v <;> simp [hg, buildFileMap]
      exact absurd ⟨fields, _, rfl, hg⟩ hj
  · intro j hj
    unfold readExistingIconsIndex readExistingIndexCore
    cases j <;> try rfl
    rename_i fields
    rcases hg : getKey fields "icons" with _ | v
    · simp [hg, buildFileMap]
    · cases v <;> simp [hg, buildFileMap]
      exact absurd ⟨fields, _, rfl, hg⟩ hj
  · intro fs
    exact List.map_congr_left (fun f _ => rfl)
  · intro fs
    exact List.map_congr_left (fun f _ => rfl)

/-- Witness for C7: an object whose `maps` field is a string (a schema
mismatch) reads as the empty map, and a fresh one-file reconciliation is
the all-default entry. -/
theorem C7_malformed_prior_empty_witness :
    readExistingMapsIndex (PriorIndexState.parsed (some (Json.obj
        [("maps", Json.str "oops")]))) = [] ∧
    mapsReconcile [] ["a.png"] = ["a.png"].map mapsFresh :=
  ⟨C7_malformed_prior_empty.2.2.1 (Json.obj [("maps", Json.str "oops")])
      (by rintro ⟨fields, a, hfe, hg⟩; cases hfe; simp [getKey, assocGet] at hg),
    C7_malformed_prior_empty.2.2.2.2.1 ["a.png"]⟩

theorem loadManyGo_no_badBody (env : String → FetchOutcome) (files : List String)
    (out : List Json) (h : ∀ f ∈ files, env f ≠ FetchOutcome.badBody) :
    loadManyGo env out files = Except.ok (out ++ files.filterMap (fetchDoc env)) := by
  induction files generalizing out with
  | nil => simp [loadManyGo]
  | cons a rest ih =>
    have hrest : ∀ f ∈ rest, env f ≠ FetchOutcome.badBody :=
      fun f hf => h f (List.mem_cons_of_mem _ hf)
    rcases henv : env a with _ | d | _
    · simp [loadManyGo, henv, fetchDoc, ih _ hrest]
    · by_cases hd : jsTruthy d
      · simp [loadManyGo, henv, hd, fetchDoc, ih _ hrest]
      · simp [loadManyGo, henv, hd, fetchDoc, ih _ hrest]
    · exact absurd henv (h a (List.mem_cons_self a rest))

theorem loadManyGo_ok (env : String → FetchOutcome) (files : List String) (out res : List Json)
    (h : loadManyGo env out files = Except.ok res) :
    res = out ++ files.filterMap (fetchDoc env) := by
  induction files generalizing out with
  | nil =>
    simp only [loadManyGo, Except.ok.injEq] at h
    simp [h]
  | cons a rest ih =>
    rcases henv : env a with _ | d | _
    · simp only [loadManyGo, henv] at h
      simpa [fetchDoc, henv] using ih _ h
    · by_cases hd : jsTruthy d
      · simp only [loadManyGo, henv, if_pos hd] at h
        simpa [fetchDoc, henv, hd] using ih _ h
      · simp only [loadManyGo, henv, if_neg hd] at h
        simpa [fetchDoc, henv, hd] using ih _ h
    · simp only [loadManyGo, henv] at h
      exact Except.noConfusion h

theorem maxInFlight_loadManyTrace (env : String → FetchOutcome) (files : List String) :
    maxInFlight (loadManyTrace env files) ≤ 1 := by
  unfold maxInFlight
  induction files with
  | nil => simp [loadManyTrace, inFlightMax]
  | cons a rest ih =>
    rcases henv : env a with _ | d | _ <;>
      simp [loadManyTrace, henv, inFlightMax, ih]

/-- **C3** (amended).  `loadMany` takes no concurrency parameter and uses
no worker pool: the loop fetches strictly sequentially, so at most one
fetch is ever in flight (in particular never more than `min(12, n)`), and
when no response body fails to parse the call resolves with exactly the
truthy parsed documents of the ok responses (so the result count equals
the number of successful fetches; a parse failure instead rejects the
whole call, see the counterexample). -/
theorem C3_loader_sequential (env : String → FetchOutcome) (files : List String) :
    maxInFlight (loadManyTrace env files) ≤ 1 ∧
    ((∀ f ∈ files, env f ≠ FetchOutcome.badBody) →
      loadMany env files = Except.ok (files.filterMap (fetchDoc env))) :=
  ⟨maxInFlight_loadManyTrace env files,
    fun h => by simpa [loadMany] using loadManyGo_no_badBody env files [] h⟩

/-- Witness for the amended C3: three non-success fetches — one worker at
a time, empty result, no crash. -/
theorem C3_loader_sequential_witness :
    maxInFlight (loadManyTrace (fun _ => FetchOutcome.notOk) ["a.json", "b.json", "c.json"]) ≤ 1 ∧
    loadMany (fun _ => FetchOutcome.notOk) ["a.json", "b.json", "c.json"]
      = Except.ok ((["a.json", "b.json", "c.json"]).filterMap
          (fetchDoc (fun _ => FetchOutcome.notOk))) :=
  ⟨(C3_loader_sequential (fun _ => FetchOutcome.notOk) ["a.json", "b.json", "c.json"]).1,
    (C3_loader_sequential (fun _ => FetchOutcome.notOk) ["a.json", "b.json", "c.json"]).2
      (fun _ _ => fun hh => FetchOutcome.noConfusion hh)⟩

/-- **C3 counterexample.**  The claim, instantiated at a concrete
three-file call: (i) there is no `concurrency` pool — the trace never has
more than 1 fetch in flight, while a pool of `min(12, 3) = 3` workers
would put 3 in flight; and (ii) "the final result count equals the number
of successful fetches" fails outright when one body fails to parse: the
call rejects and returns no result at all (the spec says failures "never
crash the call"). -/
theorem C3_counterexample :
    maxInFlight (loadManyTrace
        (fun f => if f = "b.json" then FetchOutcome.badBody else FetchOutcome.ok (Json.str "d"))
        ["a.json", "b.json", "c.json"]) = 1 ∧
    Nat.min 12 3 = 3 ∧ (1 : Nat) ≠ 3 ∧
    loadMany (fun f => if f = "b.json" then FetchOutcome.badBody else FetchOutcome.ok (Json.str "d"))
        ["a.json", "b.json", "c.json"] = Except.error () ∧
    ∀ out, loadMany
        (fun f => if f = "b.json" then FetchOutcome.badBody else FetchOutcome.ok (Json.str "d"))
        ["a.json", "b.json", "c.json"] ≠ Except.ok out := by
  refine ⟨rfl, rfl, by decide, rfl, fun out h => ?_⟩
  rw [show loadMany
      (fun f => if f = "b.json" then FetchOutcome.badBody else FetchOutcome.ok (Json.str "d"))
      ["a.json", "b.json", "c.json"] = Except.error () from rfl] at h
  exact Except.noConfusion h

/-- **C4** (amended).  Per-item failure tolerance holds for non-success
HTTP statuses only: every `notOk` fetch is skipped and the remaining
results are returned without the call failing.  A response body that
fails to parse, however, rejects the whole call (no results are
returned) — the source has no `catch` around `r.json()`. -/
theorem C4_partial_failure (env : String → FetchOutcome) (files : List String)
    (h : ∀ f ∈ files, env f ≠ FetchOutcome.badBody) :
    loadMany env files = Except.ok (files.filterMap (fetchDoc env)) := by
  simpa [loadMany] using loadManyGo_no_badBody env files [] h

/-- Witness for the amended C4: a batch of three where the middle fetch
has a non-success status still yields the other two documents. -/
theorem C4_partial_failure_witness :
    loadMany
        (fun f => if f = "b.json" then FetchOutcome.notOk else FetchOutcome.ok (Json.str "doc"))
        ["a.json", "b.json", "c.json"]
      = Except.ok ((["a.json", "b.json", "c.json"]).filterMap
          (fetchDoc (fun f =>
            if f = "b.json" then FetchOutcome.notOk else FetchOutcome.ok (Json.str "doc")))) :=
  C4_partial_failure
    (fun f => if f = "b.json" then FetchOutcome.notOk else FetchOutcome.ok (Json.str "doc"))
    ["a.json", "b.json", "c.json"]
    (by
      intro f hf
      by_cases hb : f = "b.json" <;> simp [hb])

/-- **C4 counterexample.**  The claim as stated — a body that fails to
parse is "skipped without aborting the call: the other N−1 results are
still returned and the overall operation never throws" — is false: with
N = 2 and one unparseable body, `r.json()` rejects, the `await` rethrows
and the call yields no results at all. -/
theorem C4_counterexample :
    loadMany
        (fun f => if f = "good.json" then FetchOutcome.ok (Json.str "ok") else FetchOutcome.badBody)
        ["good.json", "bad.json"] = Except.error () ∧
    ∀ out, loadMany
        (fun f => if f = "good.json" then FetchOutcome.ok (Json.str "ok") else FetchOutcome.badBody)
        ["good.json", "bad.json"] ≠ Except.ok out := by
  refine ⟨rfl, fun out h => ?_⟩
  rw [show loadMany
      (fun f => if f = "good.json" then FetchOutcome.ok (Json.str "ok") else FetchOutcome.badBody)
      ["good.json", "bad.json"] = Except.error () from rfl] at h
  exact Except.noConfusion h

/-- **C10.**  Input-order preservation: whenever `loadMany` resolves, the
returned sequence is exactly the input filename list filtered to its
successful, truthy documents, in input order (`List.filterMap` keeps the
relative order of the input list) — the loop fetches one file at a time
and appends each success immediately. -/
theorem C10_order_preserved (env : String → FetchOutcome) (files : List String)
    (out : List Json) (h : loadMany env files = Except.ok out) :
    out = files.filterMap (fetchDoc env) := by
  simpa using loadManyGo_ok env files [] out h

/-- Witness for C10: a concrete resolved call returns the two truthy
documents in input order. -/
theorem C10_order_preserved_witness :
    loadMany
        (fun f => if f = "a.json" then FetchOutcome.ok (Json.num 1)
          else if f = "b.json" then FetchOutcome.notOk else FetchOutcome.ok (Json.num 3))
        ["a.json", "b.json", "c.json"] = Except.ok [Json.num 1, Json.num 3] ∧
    ([Json.num 1, Json.num 3] : List Json)
      = (["a.json", "b.json", "c.json"]).filterMap
          (fetchDoc (fun f => if f = "a.json" then FetchOutcome.ok (Json.num 1)
            else if f = "b.json" then FetchOutcome.notOk else FetchOutcome.ok (Json.num 3))) :=
  ⟨rfl,
    C10_order_preserved
      (fun f => if f = "a.json" then FetchOutcome.ok (Json.num 1)
        else if f = "b.json" then FetchOutcome.notOk else FetchOutcome.ok (Json.num 3))
      ["a.json", "b.json", "c.json"] [Json.num 1, Json.num 3] rfl⟩

/-- **C8.**  Sort determinism: the document-backed `files` listing and the
recursive asset walk are sorted by the locale-aware comparator, and the
concrete listing `["b.json", "a.json"]` (as regular directory entries)
yields `["a.json", "b.json"]`. -/
theorem C8_sort_determinism :
    listJsonFiles [("b.json", true), ("a.json", true)] = ["a.json", "b.json"] ∧
    (∀ entries, (listJsonFiles entries).Sorted locLe) ∧
    (∀ root exts, (walkFilesRecursive root exts).Sorted locLe) := by
  refine ⟨by decide, fun entries => ?_, fun root exts => ?_⟩
  · exact List.sorted_insertionSort locLe _
  · exact List.sorted_insertionSort locLe _

/-- **C9** (amended).  Fragment fallback as the router actually resolves
it: an absent fragment or one that fails URL-decoding falls back to the
catalog's first entry, but a *decodable* fragment is returned verbatim as
the active path even when it names no catalog page (the claim's
"names an unknown page" case — see the counterexample; the page loader
then renders a not-found view for it). -/
theorem C9_fragment_fallback :
    (∀ s, stripHash s = "" → getActivePathFromHash s = firstPagePath) ∧
    (∀ s, decodeURIComponent (stripHash s) = none →
      getActivePathFromHash s = firstPagePath) ∧
    (∀ s d, stripHash s ≠ "" → decodeURIComponent (stripHash s) = some d →
      getActivePathFromHash s = d) := by
  refine ⟨fun s h => ?_, fun s h => ?_, fun s d hne hd => ?_⟩
  · simp [getActivePathFromHash, h]
  · by_cases he : stripHash s = ""
    · simp [getActivePathFromHash, he]
    · simp [getActivePathFromHash, he, h]
  · simp [getActivePathFromHash, hne, hd]

/-- Witness for the amended C9: an empty fragment and an undecodable
fragment both fall back to the first catalog page, while a decodable
fragment resolves to itself. -/
theorem C9_fragment_fallback_witness :
    getActivePathFromHash "#" = firstPagePath ∧
    getActivePathFromHash "#%gg" = firstPagePath ∧
    getActivePathFromHash "#content/lore/index.md" = "content/lore/index.md" :=
  ⟨C9_fragment_fallback.1 "#" rfl,
    C9_fragment_fallback.2.1 "#%gg" rfl,
    C9_fragment_fallback.2.2 "#content/lore/index.md" "content/lore/index.md" (by decide) rfl⟩

/-- **C9 counterexample.**  The claim also promises fallback when the
fragment "names an unknown page"; the router instead returns the unknown
decoded path as the active path: `#lost-page.md` resolves to
`lost-page.md`, which is no catalog entry and not the first entry. -/
theorem C9_counterexample :
    getActivePathFromHash "#lost-page.md" = "lost-page.md" ∧
    firstPagePath = "content/house-rules/index.md" ∧
    ("lost-page.md" : String) ≠ "content/house-rules/index.md" ∧
    ∀ p ∈ PAGES, p.2.2 ≠ "lost-page.md" := by
  exact ⟨rfl, rfl, by decide, by decide⟩

/-- **C5** (amended).  Code-content escaping as the renderer actually
does it: the content of every *fenced* code block is HTML-escaped at the
restore step — for any pushed block body whatsoever, the placeholder is
replaced by `<pre><code>` + `escapeHtml` of the newline-trimmed body +
`</code></pre>` — and a fenced block containing `<script>` therefore
renders as escaped text inside a code element.  *Inline* code spans,
however, are inserted verbatim, without escaping (see the
counterexample). -/
theorem C5_code_escaping :
    (∀ code : List Char,
      restoreGo [code] ("<p>@@CODEBLOCK_0@@</p>".length + 1) ("<p>@@CODEBLOCK_0@@</p>").data
        = some ("<p><pre><code>".data ++ (escapeHtml (String.mk (trimNlRuns code))).data
            ++ "</code></pre></p>".data)) ∧
    simpleMarkdown "```\n<script>alert(1)</script>\n```"
      = some "<p><pre><code>&lt;script&gt;alert(1)&lt;/script&gt;</code></pre></p>" ∧
    simpleMarkdown "`safe`" = some "<p><code>safe</code></p>" :=
  ⟨fun code => by simp [restoreGo, natOfDigits], rfl, rfl⟩

/-- **C5 counterexample.**  The claim says the content of every *inline*
code span is HTML-escaped before insertion.  It is not: the inline pass
is `md.replace(/`([^`]+)`/g, "<code>$1</code>")`, inserting the raw
capture, so an inline span containing `<script>` appears unescaped (live
markup) in the output. -/
theorem C5_counterexample :
    simpleMarkdown "`<script>alert(1)</script>`"
      = some "<p><code><script>alert(1)</script></code></p>" ∧
    escapeHtml "<script>alert(1)</script>" = "&lt;script&gt;alert(1)&lt;/script&gt;" ∧
    ("<p><code><script>alert(1)</script></code></p>" : String)
      ≠ "<p><code>" ++ escapeHtml "<script>alert(1)</script>" ++ "</code></p>" :=
  ⟨rfl, rfl, by decide⟩
